import Mathlib

set_option maxRecDepth 40000
set_option exponentiation.threshold 4000

/-!
Shallow embedding of `src/main.rs` of the babel-encoding repository.

Rust `String`/`&str` values are modelled as `List Char`, bytes (`u8`) as
natural numbers below 256 with wrapping arithmetic made explicit as `% 256`
(release-build semantics), and `BigInt` as `Int`.  Fallible operations
(indexing, `unwrap`, `assert`) are modelled with `Option`, a panic being
`none`.  The random draws of `search` are passed as explicit arguments.
-/

/-- `src/main.rs` line 16: `const LENGTH_OF_PAGE: usize = 3239`. -/
def LENGTH_OF_PAGE : Nat := 3239

/-- `src/main.rs` line 17: `const PAD_CHAR: char = '.'`. -/
def PAD_CHAR : Char := '.'

/-- Lines 20-23: the location multiplier `30^length`. -/
def calculate_loc_mult (length : Nat) : Nat := 30 ^ length

/-- Lines 25-48: each byte becomes the two letters `'a' + byte / 26` and
`'a' + byte % 26`; the parallel and sequential branches compute the same
per-byte map in input order. -/
def bytes_to_babel_text (bytes : List Nat) : List Char :=
  bytes.flatMap (fun byte =>
    [Char.ofNat (97 + byte / 26), Char.ofNat (97 + byte % 26)])

/-- Line 51: `str::trim_end_matches(PAD_CHAR)` removes every trailing
occurrence of the pad character. -/
def trim_end_pad (text : List Char) : List Char :=
  (text.reverse.dropWhile (fun c => c == PAD_CHAR)).reverse

/-- Lines 59-61 (and 68-70): `(chunk[0] as u8 - b'a') * 26 + (chunk[1] as u8
- b'a')` in wrapping `u8` arithmetic; `char as u8` truncates the code point
to its low 8 bits. -/
def byte_of_pair (c0 c1 : Char) : Nat :=
  ((c0.toNat % 256 + 256 - 97) % 256 * 26 % 256
    + (c1.toNat % 256 + 256 - 97) % 256) % 256

/-- Lines 56-57 / 66-71: `chunks(2)` keeping only complete two-element
chunks, each mapped through `byte_of_pair`. -/
def pairs_to_bytes : List Char → List Nat
  | c0 :: c1 :: rest => byte_of_pair c0 c1 :: pairs_to_bytes rest
  | _ => []

/-- Lines 50-75: trim trailing pad characters, then convert the remaining
characters two at a time. -/
def babel_text_to_bytes (text : List Char) : List Nat :=
  pairs_to_bytes (trim_end_pad text)

/-- Lines 78 and 110: the 29-symbol page alphabet. -/
def digits29 : List Char := "abcdefghijklmnopqrstuvwxyz, .".toList

/-- Lines 82-86: the fold body of `string_to_number` — `position` of the
character in the alphabet extends the accumulator, any other character is
skipped. -/
def stn_step (result : Int) (c : Char) : Int :=
  match digits29.findIdx? (fun x => x == c) with
  | some pos => result * 29 + (pos : Int)
  | none => result

/-- Lines 77-88: base-29 positional accumulation over the input characters,
starting from zero. -/
def string_to_number (input : List Char) : Int :=
  input.foldl stn_step 0

/-- Line 95: the base-36 digit alphabet. -/
def digits36 : List Char := "0123456789ABCDEFGHIJKLMNOPQRSTUVWXYZ".toList

/-- Lines 90-107: the repeated `div_rem` by 36 loop produces exactly the
little-endian digit list `Nat.digits 36` of a positive argument, which is
then mapped to characters and reversed; a negative `BigInt` fails the
`x > 0` loop guard immediately and yields the empty string (its `toNat` is
0, whose digit list is empty). -/
def int_to_base36 (x : Int) : List Char :=
  if x = 0 then ['0']
  else ((Nat.digits 36 x.toNat).map (fun d => digits36.getD d '0')).reverse

/-- Lines 109-136: zero short-circuits to the single character `"a"` before
any padding; otherwise the `div_rem` by 29 loop yields `Nat.digits 29` of a
positive argument (and nothing for a negative one), mapped to alphabet
characters, reversed, and left-padded with `'a'` when shorter than
`LENGTH_OF_PAGE`.  The in-range digit index is looked up directly in the
alphabet (`getD` default is unreachable as every remainder is below 29). -/
def to_text (x : Int) : List Char :=
  if x = 0 then ['a']
  else
    let ds : List Nat := if 0 < x then Nat.digits 29 x.toNat else []
    let text := (ds.map (fun d => digits29.getD d 'a')).reverse
    if text.length < LENGTH_OF_PAGE then
      List.replicate (LENGTH_OF_PAGE - text.length) 'a' ++ text
    else text

/-- One digit value as accepted by num-bigint's radix parsing:
`0`-`9`, then letters of either case with values 10-35. -/
def digit_value (c : Char) : Option Nat :=
  if '0' ≤ c ∧ c ≤ '9' then some (c.toNat - 48)
  else if 'a' ≤ c ∧ c ≤ 'z' then some (c.toNat - 87)
  else if 'A' ≤ c ∧ c ≤ 'Z' then some (c.toNat - 55)
  else none

/-- Digit-by-digit accumulation; any character that is not a digit below the
radix makes the parse fail. -/
def parse_digits_acc (radix : Nat) : List Char → Nat → Option Nat
  | [], acc => some acc
  | c :: rest, acc =>
    match digit_value c with
    | some d =>
      if d < radix then parse_digits_acc radix rest (acc * radix + d) else none
    | none => none

/-- `BigInt::parse_bytes(_, radix)` / `BigInt::from_str_radix` (lines 188,
346, 349): an optional sign followed by at least one digit. -/
def parse_radix (radix : Nat) (s : List Char) : Option Int :=
  match s with
  | [] => none
  | '-' :: rest =>
    if rest.isEmpty then none
    else (parse_digits_acc radix rest 0).map (fun n => -(n : Int))
  | '+' :: rest =>
    if rest.isEmpty then none
    else (parse_digits_acc radix rest 0).map (fun n => (n : Int))
  | _ => (parse_digits_acc radix s 0).map (fun n => (n : Int))

/-- Line 338: `str::split(':')` — every colon splits, empty fields are kept,
and the result always has at least one field. -/
def split_colon : List Char → List (List Char)
  | [] => [[]]
  | c :: rest =>
    if c = ':' then [] :: split_colon rest
    else
      match split_colon rest with
      | f :: fs => (c :: f) :: fs
      | [] => [[c]]

/-- Lines 342-343: `format!("{:02}", s)` applied to a *string* value pads
left-aligned with spaces up to the width (Rust's zero flag only affects
numeric arguments). -/
def pad_str (width : Nat) (s : List Char) : List Char :=
  if width ≤ s.length then s else s ++ List.replicate (width - s.length) ' '

/-- Decimal rendering of a nonnegative integer (`Display` for the coordinate
numbers in `search`). -/
def dec_repr (n : Nat) : List Char :=
  if n = 0 then ['0']
  else ((Nat.digits 10 n).map (fun d => Char.ofNat (48 + d))).reverse

/-- Lines 184-185: `format!("{:02}", n)` applied to a *number* zero-pads on
the left to the width. -/
def pad_num (width : Nat) (n : Nat) : List Char :=
  List.replicate (width - (dec_repr n).length) '0' ++ dec_repr n

/-- Lines 337-356: split the address, rebuild the packed decimal location,
subtract `locInt * 30^LENGTH_OF_PAGE` from the parsed base-36 field and
render the difference as page text.  The panics (field indexing with fewer
than five parts, `unwrap` on the two parses, the final length assertion) are
modelled as `none`. -/
def get_page (address : List Char) : Option (List Char) :=
  match split_colon address with
  | hex_addr :: wall :: shelf :: volume0 :: page0 :: _ =>
    let volume := pad_str 2 volume0
    let page := pad_str 3 page0
    let loc_str := page ++ volume ++ shelf ++ wall
    match parse_radix 10 loc_str, parse_radix 36 hex_addr with
    | some loc_int, some combined =>
      let key := combined - loc_int * (calculate_loc_mult LENGTH_OF_PAGE : Int)
      let result := to_text key
      if result.length = LENGTH_OF_PAGE then some result else none
    | _, _ => none
  | _ => none

/-- Lines 139-174: retrieve the page for the address and compare it with the
original, both with trailing pad characters removed (the length check and
the content check together are exactly that equality). -/
def verify_page (original : List Char) (address : List Char) : Option Bool :=
  (get_page address).map (fun retrieved =>
    trim_end_pad original == trim_end_pad retrieved)

/-- Lines 177-201, with the four `rng.gen_range` draws passed explicitly:
assert the page length, pack the coordinate, combine with the page number,
render in base 36, assemble the address, then self-verify; the assertion
failure, the parse `unwrap` and a failed verification all abort (`none`). -/
def search (search_str : List Char) (wall shelf volume page : Nat) :
    Option (List Char) :=
  if search_str.length = LENGTH_OF_PAGE then
    let wall_s := dec_repr wall
    let shelf_s := dec_repr shelf
    let volume_s := pad_num 2 volume
    let page_s := pad_num 3 page
    let loc_str := page_s ++ volume_s ++ shelf_s ++ wall_s
    match parse_radix 10 loc_str with
    | some loc_int =>
      let loc_mult := (calculate_loc_mult LENGTH_OF_PAGE : Int)
      let search_num := string_to_number search_str
      let hex_addr := int_to_base36 (search_num + loc_int * loc_mult)
      let address :=
        hex_addr ++ ':' :: wall_s ++ ':' :: shelf_s ++ ':' :: volume_s
          ++ ':' :: page_s
      match verify_page search_str address with
      | some true => some address
      | _ => none
    | none => none
  else none

/-- `decode_file` lines 306-310: `rfind` the last non-pad character and keep
everything up to and including it; a page of only pad characters becomes
empty. -/
def strip_page (s : List Char) : List Char :=
  match s.reverse.findIdx? (fun c => c != PAD_CHAR) with
  | some j => s.take (s.length - j)
  | none => []

/-- `decode_file` lines 303-314: the per-page strip is applied to every
decoded page (the `map` body runs for each location uniformly), and the
results are concatenated with `join("")`.  The pages argument stands for the
`get_page` outputs of the address list. -/
def decode_join (pages : List (List Char)) : List Char :=
  (pages.map strip_page).flatten

/-! ## Helper lemmas -/

/-- Decoding the two letters produced for a byte recovers the byte: no step
of the wrapping `u8` arithmetic overflows on well-formed pairs. -/
theorem byte_of_pair_encode : ∀ v, v < 256 →
    byte_of_pair (Char.ofNat (97 + v / 26)) (Char.ofNat (97 + v % 26)) = v := by
  decide

/-- Neither letter produced for a byte is the pad character. -/
theorem encode_char_ne_pad : ∀ v, v < 256 →
    (Char.ofNat (97 + v / 26) == PAD_CHAR) = false ∧
      (Char.ofNat (97 + v % 26) == PAD_CHAR) = false := by
  decide

theorem dropWhile_eq_self_of_forall {p : Char → Bool} {l : List Char}
    (h : ∀ c ∈ l, p c = false) : l.dropWhile p = l := by
  cases l with
  | nil => rfl
  | cons a t =>
    rw [List.dropWhile_cons, h a (List.mem_cons_self a t)]
    simp

theorem trim_end_pad_eq_self {l : List Char}
    (h : ∀ c ∈ l, (c == PAD_CHAR) = false) : trim_end_pad l = l := by
  unfold trim_end_pad
  rw [dropWhile_eq_self_of_forall (fun c hc => h c (List.mem_reverse.mp hc)),
    List.reverse_reverse]

theorem encode_all_ne_pad (bytes : List Nat) (h : ∀ v ∈ bytes, v < 256) :
    ∀ c ∈ bytes_to_babel_text bytes, (c == PAD_CHAR) = false := by
  intro c hc
  unfold bytes_to_babel_text at hc
  rw [List.mem_flatMap] at hc
  obtain ⟨v, hv, hcv⟩ := hc
  have hv256 := h v hv
  rcases List.mem_pair.mp hcv with rfl | rfl
  · exact (encode_char_ne_pad v hv256).1
  · exact (encode_char_ne_pad v hv256).2

theorem bytes_to_babel_text_cons (v : Nat) (t : List Nat) :
    bytes_to_babel_text (v :: t) =
      Char.ofNat (97 + v / 26) :: Char.ofNat (97 + v % 26)
        :: bytes_to_babel_text t := rfl

theorem pairs_encode (bytes : List Nat) (h : ∀ v ∈ bytes, v < 256) :
    pairs_to_bytes (bytes_to_babel_text bytes) = bytes := by
  induction bytes with
  | nil => rfl
  | cons v t ih =>
    have hv : v < 256 := h v (List.mem_cons_self v t)
    have ht : ∀ x ∈ t, x < 256 := fun x hx => h x (List.mem_cons_of_mem v hx)
    rw [bytes_to_babel_text_cons]
    show byte_of_pair (Char.ofNat (97 + v / 26)) (Char.ofNat (97 + v % 26))
        :: pairs_to_bytes (bytes_to_babel_text t) = v :: t
    rw [byte_of_pair_encode v hv, ih ht]

theorem findIdx?_pad_run {p : Char → Bool} (hp : p PAD_CHAR = false)
    (k : Nat) (l : List Char) :
    List.findIdx? p (List.replicate k PAD_CHAR ++ l)
      = (List.findIdx? p l).map (fun i => i + k) := by
  rw [List.findIdx?_append, List.findIdx?_replicate]
  simp [hp]

/-- Trailing pad characters never move the `rfind` cut of `strip_page`:
the strip removes exactly the trailing pad run, wherever the page sits. -/
theorem strip_page_append_pad (p : List Char) (k : Nat) :
    strip_page (p ++ List.replicate k PAD_CHAR) = strip_page p := by
  unfold strip_page
  rw [List.reverse_append, List.reverse_replicate,
    findIdx?_pad_run (by decide) k p.reverse]
  cases h : List.findIdx? (fun c => c != PAD_CHAR) p.reverse with
  | none => simp
  | some j =>
    have hj : j < p.length := by
      have := (List.findIdx?_eq_some_iff_findIdx_eq.mp h).1
      simpa using this
    simp only [Option.map_some']
    rw [List.length_append, List.length_replicate]
    have harith : p.length + k - (j + k) = p.length - j := by omega
    rw [harith, List.take_append_of_le_length (by omega)]

theorem stn_step_a (acc : Int) : stn_step acc 'a' = acc * 29 := by
  have h : List.findIdx? (fun x => x == 'a') digits29 = some 0 := by decide
  unfold stn_step
  rw [h]
  norm_num

theorem stn_step_dot (acc : Int) : stn_step acc '.' = acc * 29 + 28 := by
  have h : List.findIdx? (fun x => x == '.') digits29 = some 28 := by decide
  unfold stn_step
  rw [h]
  norm_num

theorem foldl_stn_replicate_a :
    ∀ (n : Nat) (acc : Int),
      List.foldl stn_step acc (List.replicate n 'a') = acc * 29 ^ n := by
  intro n
  induction n with
  | zero => intro acc; simp
  | succ m ih =>
    intro acc
    rw [List.replicate_succ, List.foldl_cons, stn_step_a, ih]
    ring

theorem foldl_stn_replicate_dot :
    ∀ (n : Nat) (acc : Int),
      List.foldl stn_step acc (List.replicate n '.') = (acc + 1) * 29 ^ n - 1 := by
  intro n
  induction n with
  | zero => intro acc; simp
  | succ m ih =>
    intro acc
    rw [List.replicate_succ, List.foldl_cons, stn_step_dot, ih]
    ring

theorem stn_step_of_not_mem {c : Char} (hc : c ∉ digits29) (acc : Int) :
    stn_step acc c = acc := by
  have h : List.findIdx? (fun x => x == c) digits29 = none := by
    rw [List.findIdx?_eq_none_iff]
    intro x hx
    rw [beq_eq_false_iff_ne]
    rintro rfl
    exact hc hx
  unfold stn_step
  rw [h]

theorem foldl_stn_filter :
    ∀ (l : List Char) (acc : Int),
      List.foldl stn_step acc l
        = List.foldl stn_step acc (l.filter (fun c => c ∈ digits29)) := by
  intro l
  induction l with
  | nil => intro acc; rfl
  | cons c t ih =>
    intro acc
    by_cases hc : c ∈ digits29
    · rw [List.foldl_cons, List.filter_cons_of_pos (by simp [hc]),
        List.foldl_cons, ih]
    · rw [List.foldl_cons, stn_step_of_not_mem hc,
        List.filter_cons_of_neg (by simp [hc]), ih]

/-! ## Claim theorems -/

/-- Claim C3: the claim states that `to_text` returns a page of exactly
`LENGTH_OF_PAGE` characters for every input in range, with `to_text 0` the
all-`'a'` page.  The code disagrees at the input 0: the zero short-circuit
returns the single-character string `"a"` before the left-padding step, so
the output has length 1 and is not the all-`'a'` page. -/
theorem to_text_zero_not_full_page :
    to_text 0 = ['a'] ∧ (to_text 0).length ≠ LENGTH_OF_PAGE ∧
      to_text 0 ≠ List.replicate LENGTH_OF_PAGE 'a' := by
  refine ⟨by decide, by decide, by decide⟩

/-- Claim C6 counterexample: encoding the byte `0x41` does not yield
`"cp"` — the second symbol index is `65 % 26 = 13`, not 15. -/
theorem encode_41_not_cp : bytes_to_babel_text [65] ≠ ['c', 'p'] := by decide

/-- Claim C6 (amended): encoding the single byte `0x41` yields `"cn"`
(first symbol index `65 / 26 = 2` giving `'c'`, second `65 % 26 = 13`
giving `'n'`), and decoding `"cn"` yields back the single byte `0x41`. -/
theorem encode_41_cn :
    bytes_to_babel_text [65] = ['c', 'n'] ∧
      babel_text_to_bytes ['c', 'n'] = [65] := by
  refine ⟨by decide, by decide⟩

/-- Claim C7 counterexample: the decode path does not keep trailing `'.'`
characters of a non-final page — on the two decoded pages `"b."` and `"c"`
the pipeline produces `"bc"`, not `"b.c"` as the claim requires. -/
theorem strip_hits_nonfinal_page :
    decode_join ["b.".toList, "c".toList] = "bc".toList ∧
      decode_join ["b.".toList, "c".toList] ≠ "b.c".toList := by
  refine ⟨by decide, by decide⟩

/-- Claim C7 (amended): during the decode path trailing `'.'` characters
are stripped from the tail of every decoded page uniformly — final or not —
before concatenation: appending a trailing pad run to any page of the list
leaves the concatenated result unchanged. -/
theorem decode_strip_uniform (pre post : List (List Char)) (p : List Char)
    (k : Nat) :
    decode_join (pre ++ (p ++ List.replicate k PAD_CHAR) :: post)
      = decode_join (pre ++ p :: post) := by
  unfold decode_join
  rw [List.map_append, List.map_append, List.map_cons, List.map_cons,
    strip_page_append_pad]

/-- Claim C8: the claim states that `babel_text_to_bytes` fails with an
`InvalidAlphabet` error on any character outside `'a'..'z'`.  The code has
no such check: on the text `"Ab"` the wrapping `u8` arithmetic silently
produces the byte 193 (a debug build would panic on subtraction overflow
instead — neither behaviour is an `InvalidAlphabet` error). -/
theorem decode_no_alphabet_validation :
    babel_text_to_bytes "Ab".toList = [193] := by decide

/-- Claim C9: the all-`'a'` page encodes to page number 0; the all-`'.'`
page encodes to `29 ^ LENGTH_OF_PAGE - 1`, the maximum representable page
number, which is strictly below the multiplier
`calculate_loc_mult LENGTH_OF_PAGE = 30 ^ LENGTH_OF_PAGE`. -/
theorem boundary_pages :
    string_to_number (List.replicate LENGTH_OF_PAGE 'a') = 0 ∧
      string_to_number (List.replicate LENGTH_OF_PAGE '.')
        = 29 ^ LENGTH_OF_PAGE - 1 ∧
      29 ^ LENGTH_OF_PAGE - 1 < (calculate_loc_mult LENGTH_OF_PAGE : Int) := by
  refine ⟨?_, ?_, ?_⟩
  · rw [string_to_number, foldl_stn_replicate_a]
    ring
  · rw [string_to_number, foldl_stn_replicate_dot]
    ring
  · have h1 : (29 : Int) ^ LENGTH_OF_PAGE ≤ 30 ^ LENGTH_OF_PAGE :=
      pow_le_pow_left₀ (by norm_num) (by norm_num) LENGTH_OF_PAGE
    have h2 : (calculate_loc_mult LENGTH_OF_PAGE : Int)
        = 30 ^ LENGTH_OF_PAGE := by
      rw [calculate_loc_mult]
      push_cast
      ring
    rw [h2]
    omega

/-- Claim C10: `string_to_number` is total — it never fails, performs no
length check, and silently skips every character outside the 29-symbol
alphabet, so its value on any string equals its value on the string with
all non-alphabet characters removed. -/
theorem string_to_number_ignores_foreign (input : List Char) :
    string_to_number input
      = string_to_number (input.filter (fun c => c ∈ digits29)) := by
  rw [string_to_number, string_to_number]
  exact foldl_stn_filter input 0

/-- Claim C5: byte round-trip — for every byte sequence, decoding the babel
text produced by encoding it yields the sequence back exactly: the encoded
text contains no pad character, so the trailing trim is the identity, and
each two-letter code decodes to its source byte. -/
theorem byte_roundtrip (bytes : List Nat) (h : ∀ v ∈ bytes, v < 256) :
    babel_text_to_bytes (bytes_to_babel_text bytes) = bytes := by
  rw [babel_text_to_bytes,
    trim_end_pad_eq_self (encode_all_ne_pad bytes h)]
  exact pairs_encode bytes h

/-- Witness for C5 at the concrete byte sequence `[0, 65, 129, 255]`. -/
theorem byte_roundtrip_witness :
    (∀ v ∈ [0, 65, 129, 255], v < 256) ∧
      babel_text_to_bytes (bytes_to_babel_text [0, 65, 129, 255])
        = [0, 65, 129, 255] :=
  ⟨by decide, byte_roundtrip [0, 65, 129, 255] (by decide)⟩

/-- A negative key renders as the full-length all-`'a'` page: the digit loop
does not run, and the empty digit string is left-padded to
`LENGTH_OF_PAGE`. -/
theorem to_text_neg {x : Int} (hx : x < 0) :
    to_text x = List.replicate LENGTH_OF_PAGE 'a' := by
  unfold to_text
  rw [if_neg (by omega : ¬ x = 0), if_neg (by omega : ¬ 0 < x)]
  show (if ([] : List Char).length < LENGTH_OF_PAGE then
      List.replicate (LENGTH_OF_PAGE - ([] : List Char).length) 'a'
        ++ ([] : List Char)
    else ([] : List Char)) = List.replicate LENGTH_OF_PAGE 'a'
  rw [if_pos (by decide : ([] : List Char).length < LENGTH_OF_PAGE)]
  simp

/-- Claim C2: the claim states `toPage (toNumber p) = p` for every page `p`
of `LENGTH_OF_PAGE` alphabet characters.  The code disagrees at the
all-`'a'` page: its number is 0, and `to_text 0` returns the
single-character string `"a"`, not the original 3239-character page. -/
theorem page_roundtrip_fails_at_zero :
    to_text (string_to_number (List.replicate LENGTH_OF_PAGE 'a')) = ['a'] ∧
      ['a'] ≠ List.replicate LENGTH_OF_PAGE 'a' := by
  have h0 : string_to_number (List.replicate LENGTH_OF_PAGE 'a') = 0 := by
    rw [string_to_number, foldl_stn_replicate_a]
    ring
  constructor
  · rw [h0]
    decide
  · intro h
    have hl := congrArg List.length h
    rw [List.length_replicate] at hl
    exact absurd hl (by decide)

/-- Claim C4: the claim states that an address whose recovered page number
is negative fails with `InvalidAddress` and never returns a page.  The code
disagrees: on the address `"0:0:0:00:001"` the recovered page number
`0 - 10000 * 30 ^ LENGTH_OF_PAGE` is negative, yet `get_page` silently
returns the full-length all-`'a'` page (the negative key renders as the
empty digit string, which the padding step then fills with `'a'`, passing
the length assertion). -/
theorem get_page_negative_silent_page :
    get_page "0:0:0:00:001".toList
        = some (List.replicate LENGTH_OF_PAGE 'a') ∧
      (0 : Int) - 10000 * (calculate_loc_mult LENGTH_OF_PAGE : Int) < 0 := by
  have hmult : (0 : Int) < (calculate_loc_mult LENGTH_OF_PAGE : Int) := by
    rw [calculate_loc_mult]
    positivity
  have hkey :
      (0 : Int) - 10000 * (calculate_loc_mult LENGTH_OF_PAGE : Int) < 0 := by
    nlinarith
  refine ⟨?_, hkey⟩
  have hsplit : split_colon "0:0:0:00:001".toList
      = ["0".toList, "0".toList, "0".toList, "00".toList, "001".toList] := by
    decide
  unfold get_page
  rw [hsplit]
  show (match
      parse_radix 10
        (pad_str 3 "001".toList ++ pad_str 2 "00".toList ++ "0".toList
          ++ "0".toList),
      parse_radix 36 "0".toList with
    | some loc_int, some combined =>
      if (to_text (combined
            - loc_int * (calculate_loc_mult LENGTH_OF_PAGE : Int))).length
          = LENGTH_OF_PAGE then
        some (to_text (combined
          - loc_int * (calculate_loc_mult LENGTH_OF_PAGE : Int)))
      else none
    | _, _ => none) = some (List.replicate LENGTH_OF_PAGE 'a')
  rw [show parse_radix 10
      (pad_str 3 "001".toList ++ pad_str 2 "00".toList ++ "0".toList
        ++ "0".toList) = some (10000 : Int) from by decide,
    show parse_radix 36 "0".toList = some (0 : Int) from by decide]
  show (if (to_text ((0 : Int)
        - (10000 : Int) * (calculate_loc_mult LENGTH_OF_PAGE : Int))).length
      = LENGTH_OF_PAGE then
      some (to_text ((0 : Int)
        - (10000 : Int) * (calculate_loc_mult LENGTH_OF_PAGE : Int)))
    else none) = some (List.replicate LENGTH_OF_PAGE 'a')
  rw [to_text_neg hkey, List.length_replicate, if_pos rfl]

/-- Claim C1: the claim states that decoding the address produced for any
valid page and coordinate yields the page back.  The code disagrees at the
all-`'a'` page (with any coordinate, here wall 0, shelf 0, volume 0,
page-index 0): its page number is 0, `get_page` hits the length assertion
because `to_text 0` is the single-character `"a"`, the self-verification
of `search` therefore aborts, and no address is ever produced. -/
theorem search_all_a_page_aborts :
    search (List.replicate LENGTH_OF_PAGE 'a') 0 0 0 0 = none := by
  have hlen : (List.replicate LENGTH_OF_PAGE 'a').length = LENGTH_OF_PAGE := by
    simp
  have hnum : string_to_number (List.replicate LENGTH_OF_PAGE 'a') = 0 := by
    rw [string_to_number, foldl_stn_replicate_a]
    ring
  unfold search
  rw [if_pos hlen, hnum]
  simp only []
  rw [show parse_radix 10
      (pad_num 3 0 ++ pad_num 2 0 ++ dec_repr 0 ++ dec_repr 0)
      = some (0 : Int) from by decide]
  simp only []
  rw [show (0 : Int) + (0 : Int) * (calculate_loc_mult LENGTH_OF_PAGE : Int)
      = 0 from by ring,
    show int_to_base36 (0 : Int) = ['0'] from by decide,
    show dec_repr 0 = ['0'] from by decide,
    show pad_num 2 0 = ['0', '0'] from by decide,
    show pad_num 3 0 = ['0', '0', '0'] from by decide]
  rw [verify_page,
    show get_page (['0'] ++ ':' :: ['0'] ++ ':' :: ['0'] ++ ':' :: ['0', '0']
      ++ ':' :: ['0', '0', '0']) = none from by decide]
  rfl
